import Mathlib

/-!
Verification development for the `reverse_engineer_confusion_matrix`
repository (two near-identical C++ translation units,
`reverse_engineer.cpp` and `reverse_engineer_confusion_matrix.cpp`).

Shallow embedding conventions:
* C++ `int` is modelled as `ℤ` (all values in play are tiny, far from
  overflow), C++ `double` as `ℚ`.  Every numeric value that actually
  occurs is a small rational that a `double` represents exactly at the
  operations performed, except for genuine division; the comparisons the
  code performs are modelled by exact `ℚ` arithmetic together with the
  round-half-away-from-zero rule of C's `round`.
* A metric formula whose denominator is zero produces `NaN` (for `0/0`)
  or `±inf` (otherwise) in IEEE arithmetic, and both compare unequal to
  every finite target with `==`/`!=`.  This is modelled by an
  `Option ℚ` metric value: `none` never matches any target.
* The `static int min_max_values[4]` buffer of
  `find_positives_vs_negatives` is modelled by explicit state passing
  (`find_positives_vs_negatives_st` takes the buffer contents at entry);
  the plain `find_positives_vs_negatives` is the first call of a
  process, whose buffer holds the initializer `{-1,-1,-1,-1}`.
* Writing a CSV row (`reverse_engineer.cpp`) and collecting into a
  vector (`reverse_engineer_confusion_matrix.cpp`) are both modelled as
  producing a `List` of matrices; the `exit(0)` taken when no correct
  count achieves the accuracy is modelled by an `Option` result, `none`
  standing for the "There are no combinations…" early exit.
-/

/-- C's `round` on a real argument: round half away from zero.
`std::round(q)` for `q ≥ 0` is `⌊q + 1/2⌋`; negative arguments round
away from zero. -/
def c_round (q : ℚ) : ℤ :=
  if q < 0 then -round (-q) else round q

/-- `round_dp` from both C++ files:
`double modifier = pow(10.0f, decimal_places); return round(number * modifier) / modifier;`. -/
def round_dp (number : ℚ) (decimal_places : ℕ) : ℚ :=
  (c_round (number * 10 ^ decimal_places) : ℚ) / 10 ^ decimal_places

/-- The matching test of `find_positives_vs_negatives`: the accuracy
`correct_preds / total_sample_size`, rounded, equals the target. -/
def accMatches (total : ℕ) (target : ℚ) (dp : ℕ) (c : ℤ) : Prop :=
  round_dp ((c : ℚ) / (total : ℚ)) dp = target

instance accMatches.instDecidable (total : ℕ) (target : ℚ) (dp : ℕ) (c : ℤ) :
    Decidable (accMatches total target dp c) :=
  inferInstanceAs (Decidable (round_dp ((c : ℚ) / (total : ℚ)) dp = target))

/-- The `static int min_max_values[4]` array:
max correct, min incorrect, min correct, max incorrect. -/
structure MinMaxValues where
  maxCorrect : ℤ
  minIncorrect : ℤ
  minCorrect : ℤ
  maxIncorrect : ℤ
deriving DecidableEq

/-- The static initializer `{-1,-1,-1,-1}`. -/
def initBuf : MinMaxValues := ⟨-1, -1, -1, -1⟩

/-- One iteration of the `for(int i = total_sample_size; i > 0; i--)`
loop body of `find_positives_vs_negatives`, acting on the buffer. -/
def pvnStep (total : ℕ) (target : ℚ) (dp : ℕ) (i : ℕ) (buf : MinMaxValues) :
    MinMaxValues :=
  if accMatches total target dp (i : ℤ) then
    if buf.maxCorrect = -1 then
      ⟨(i : ℤ), (total : ℤ) - (i : ℤ), buf.minCorrect, buf.maxIncorrect⟩
    else
      ⟨buf.maxCorrect, buf.minIncorrect, (i : ℤ), (total : ℤ) - (i : ℤ)⟩
  else buf

/-- The countdown loop: `pvnLoop … n buf` processes `i = n, n-1, …, 1`. -/
def pvnLoop (total : ℕ) (target : ℚ) (dp : ℕ) : ℕ → MinMaxValues → MinMaxValues
  | 0, buf => buf
  | n + 1, buf => pvnLoop total target dp n (pvnStep total target dp (n + 1) buf)

/-- `find_positives_vs_negatives` with the static buffer made explicit:
`buf` is the content of `min_max_values` when the call starts (the
buffer persists across calls in the C++ sources). -/
def find_positives_vs_negatives_st (buf : MinMaxValues) (total_sample_size : ℕ)
    (target_accuracy : ℚ) (decimal_places : ℕ) : MinMaxValues :=
  pvnLoop total_sample_size target_accuracy decimal_places total_sample_size buf

/-- `find_positives_vs_negatives` as executed by the first call of a
process: the static buffer still holds its initializer. -/
def find_positives_vs_negatives (total_sample_size : ℕ) (target_accuracy : ℚ)
    (decimal_places : ℕ) : MinMaxValues :=
  find_positives_vs_negatives_st initBuf total_sample_size target_accuracy decimal_places

/-- The seed `TP` of offset `i` in `find_matrices`:
`int TP = class_a_count - i; if ((min_max_values[0] - i) < class_a_count) TP = min_max_values[0] - i;`. -/
def seedTP (class_a_count : ℤ) (r : MinMaxValues) (i : ℤ) : ℤ :=
  if r.maxCorrect - i < class_a_count then r.maxCorrect - i else class_a_count - i

/-- The seed matrix of offset `i` in `find_matrices`:
`FN = class_a_count - TP; FP = min_max_values[1] + i - FN; TN = class_b_count - FP;`. -/
def seedMatrix (class_a_count class_b_count : ℤ) (r : MinMaxValues) (i : ℤ) :
    ℤ × ℤ × ℤ × ℤ :=
  (seedTP class_a_count r i,
   class_a_count - seedTP class_a_count r i,
   r.minIncorrect + i - (class_a_count - seedTP class_a_count r i),
   class_b_count - (r.minIncorrect + i - (class_a_count - seedTP class_a_count r i)))

/-- The `while (TP > 0 && TN < class_b_count)` transfer sweep of
`find_matrices`, with an explicit fuel.  Each iteration decrements `TP`
and the guard requires `TP > 0`, so `TP.toNat` units of fuel are exactly
enough; `matrixSweep` below instantiates the fuel that way. -/
def sweepFuel (cb : ℤ) : ℕ → ℤ → ℤ → ℤ → ℤ → List (ℤ × ℤ × ℤ × ℤ)
  | 0, _, _, _, _ => []
  | fuel + 1, TP, FN, FP, TN =>
    if 0 < TP ∧ TN < cb then
      (TP - 1, FN + 1, FP - 1, TN + 1) ::
        sweepFuel cb fuel (TP - 1) (FN + 1) (FP - 1) (TN + 1)
    else []

/-- The matrices pushed by the transfer sweep started at matrix `s`. -/
def matrixSweep (class_b_count : ℤ) (s : ℤ × ℤ × ℤ × ℤ) : List (ℤ × ℤ × ℤ × ℤ) :=
  sweepFuel class_b_count s.1.toNat s.1 s.2.1 s.2.2.1 s.2.2.2

/-- `int combinations = 1; if (min_max_values[2] != -1) combinations = min_max_values[0] - min_max_values[2] + 1;`. -/
def combinations (r : MinMaxValues) : ℤ :=
  if r.minCorrect ≠ -1 then r.maxCorrect - r.minCorrect + 1 else 1

/-- `find_matrices` of `reverse_engineer_confusion_matrix.cpp` (the
enumeration in `reverse_engineer.cpp` generates the same sequence, there
interleaved with `check_metric` and CSV output): for each offset `i`,
push the seed matrix, then every matrix of its transfer sweep. -/
def find_matrices (class_a_count class_b_count : ℤ) (r : MinMaxValues) :
    List (ℤ × ℤ × ℤ × ℤ) :=
  ((List.range (combinations r).toNat).map (fun (i : ℕ) =>
      seedMatrix class_a_count class_b_count r (i : ℤ) ::
        matrixSweep class_b_count (seedMatrix class_a_count class_b_count r (i : ℤ)))).join

/-- The closed set of metric names dispatched on by `check_metric` of
`reverse_engineer_confusion_matrix.cpp` (the `else` branch exits the
process and is never reached by the pipeline's four call sites). -/
inductive MetricName
  | sensitivity
  | specificity
  | f1
  | precision
deriving DecidableEq

/-- The metric formulas of both files, on `double`-casts of the counts.
A zero denominator yields IEEE `NaN` (`0/0`) or `±inf`, either of which
compares unequal to every finite target; modelled as `none`. -/
def metricValue (name : MetricName) (TP FN FP TN : ℚ) : Option ℚ :=
  match name with
  | .sensitivity => if TP + FN = 0 then none else some (TP / (TP + FN))
  | .specificity => if TN + FP = 0 then none else some (TN / (TN + FP))
  | .f1 => if 2 * TP + FP + FN = 0 then none else some (2 * TP / (2 * TP + FP + FN))
  | .precision => if TP + FP = 0 then none else some (TP / (TP + FP))

/-- `round_dp(metric, decimal_places) == target_value` as evaluated by
the C++ comparison: an undefined metric matches nothing. -/
def metricMatches (name : MetricName) (TP FN FP TN : ℚ) (target : ℚ)
    (dp : ℕ) : Bool :=
  match metricValue name TP FN FP TN with
  | none => false
  | some v => decide (round_dp v dp = target)

/-- `check_metric` of `reverse_engineer_confusion_matrix.cpp`: keep the
matrices whose rounded metric equals the target. -/
def check_metric (matrices : List (ℤ × ℤ × ℤ × ℤ)) (target_value : ℚ)
    (decimal_places : ℕ) (metric_name : MetricName) : List (ℤ × ℤ × ℤ × ℤ) :=
  matrices.filter fun m =>
    metricMatches metric_name (m.1 : ℚ) (m.2.1 : ℚ) (m.2.2.1 : ℚ) (m.2.2.2 : ℚ)
      target_value decimal_places

/-- `check_metric` of `reverse_engineer.cpp`: `meets_criteria` starts
`true` and each of the four statements
`if (round_dp(metric) != target || target == -1) meets_criteria = false;`
clears it, so the result is the conjunction of
`metric matches target ∧ target ≠ -1` over all four metrics. -/
def check_metric_re (TP FN FP TN : ℚ) (target_sensitivity target_specificity
    target_f1 target_precision : ℚ) (decimal_places : ℕ) : Bool :=
  (metricMatches .sensitivity TP FN FP TN target_sensitivity decimal_places
      && !decide (target_sensitivity = -1))
    && (metricMatches .specificity TP FN FP TN target_specificity decimal_places
      && !decide (target_specificity = -1))
    && (metricMatches .f1 TP FN FP TN target_f1 decimal_places
      && !decide (target_f1 = -1))
    && (metricMatches .precision TP FN FP TN target_precision decimal_places
      && !decide (target_precision = -1))

/-- The pipeline of `reverse_engineer_confusion_matrix.cpp`
(`reverse_engineer_confusion_matrices`): range finding, the
"no combinations" early exit (`none`), enumeration, then one
`check_metric` pass per target that is not the `-1` sentinel. -/
def reverse_engineer_confusion_matrices (class_a_count class_b_count : ℤ)
    (decimal_places : ℕ) (target_accuracy target_sensitivity target_specificity
    target_f1 target_precision : ℚ) : Option (List (ℤ × ℤ × ℤ × ℤ)) :=
  if (find_positives_vs_negatives (class_a_count + class_b_count).toNat
      target_accuracy decimal_places).maxCorrect = -1 then none
  else
    let ms0 := find_matrices class_a_count class_b_count
      (find_positives_vs_negatives (class_a_count + class_b_count).toNat
        target_accuracy decimal_places)
    let ms1 := if target_sensitivity ≠ -1 then
      check_metric ms0 target_sensitivity decimal_places .sensitivity else ms0
    let ms2 := if target_specificity ≠ -1 then
      check_metric ms1 target_specificity decimal_places .specificity else ms1
    let ms3 := if target_f1 ≠ -1 then
      check_metric ms2 target_f1 decimal_places .f1 else ms2
    some (if target_precision ≠ -1 then
      check_metric ms3 target_precision decimal_places .precision else ms3)

/-- The pipeline of `reverse_engineer.cpp`: same range finding and
"no combinations" early exit; `find_matrices` there writes a CSV row for
exactly the generated matrices that pass `check_metric`, i.e. the
enumeration filtered by `check_metric_re`. -/
def reverse_engineer_confusion_matrices_re (class_a_count class_b_count : ℤ)
    (decimal_places : ℕ) (target_accuracy target_sensitivity target_specificity
    target_f1 target_precision : ℚ) : Option (List (ℤ × ℤ × ℤ × ℤ)) :=
  if (find_positives_vs_negatives (class_a_count + class_b_count).toNat
      target_accuracy decimal_places).maxCorrect = -1 then none
  else
    some ((find_matrices class_a_count class_b_count
        (find_positives_vs_negatives (class_a_count + class_b_count).toNat
          target_accuracy decimal_places)).filter fun m =>
      check_metric_re (m.1 : ℚ) (m.2.1 : ℚ) (m.2.2.1 : ℚ) (m.2.2.2 : ℚ)
        target_sensitivity target_specificity target_f1 target_precision
        decimal_places)

/-- The correct-count range an `AccuracyRange` stands for: when
`min_correct` holds the `-1` absence marker, the range is the single
value `max_correct` (spec §3: a single-value range). -/
def minEff (r : MinMaxValues) : ℤ :=
  if r.minCorrect = -1 then r.maxCorrect else r.minCorrect

/-- Loop invariant of `find_positives_vs_negatives`: after the loop has
processed the candidate counts `total, total-1, …, n+1`, the buffer
summarizes the matching counts among them.  Either nothing matched and
the buffer is untouched, or slot 0 holds the greatest match `M` (with
slot 1 its complement), and the min slots are untouched (`-1`) when `M`
is the only match so far, else they hold the least match so far. -/
def BufInv (total : ℕ) (target : ℚ) (dp : ℕ) (n : ℕ) (buf : MinMaxValues) : Prop :=
  (buf = initBuf ∧ ∀ c : ℤ, (n : ℤ) < c → c ≤ (total : ℤ) →
      ¬ accMatches total target dp c)
  ∨ ∃ M : ℤ, (n : ℤ) < M ∧ M ≤ (total : ℤ) ∧ accMatches total target dp M ∧
      buf.maxCorrect = M ∧ buf.minIncorrect = (total : ℤ) - M ∧
      (∀ c : ℤ, (n : ℤ) < c → c ≤ (total : ℤ) → accMatches total target dp c → c ≤ M) ∧
      ((buf.minCorrect = -1 ∧ buf.maxIncorrect = -1 ∧
          ∀ c : ℤ, (n : ℤ) < c → c ≤ (total : ℤ) → accMatches total target dp c → c = M)
        ∨ ∃ m : ℤ, (n : ℤ) < m ∧ m < M ∧ accMatches total target dp m ∧
            buf.minCorrect = m ∧ buf.maxIncorrect = (total : ℤ) - m ∧
            ∀ c : ℤ, (n : ℤ) < c → c ≤ (total : ℤ) → accMatches total target dp c → m ≤ c)

lemma pvnStep_inv (total : ℕ) (target : ℚ) (dp : ℕ) (n : ℕ) (buf : MinMaxValues)
    (hn : n + 1 ≤ total) (h : BufInv total target dp (n + 1) buf) :
    BufInv total target dp n (pvnStep total target dp (n + 1) buf) := by
  by_cases hP : accMatches total target dp ((n + 1 : ℕ) : ℤ)
  · rw [pvnStep, if_pos hP]
    rcases h with ⟨hb, hnone⟩ | ⟨M, hM1, hM2, hM3, hM4, hM5, hM6, hrest⟩
    · subst hb
      rw [if_pos (show initBuf.maxCorrect = -1 from rfl)]
      have key : ∀ c : ℤ, (n : ℤ) < c → c ≤ (total : ℤ) →
          accMatches total target dp c → c = ((n + 1 : ℕ) : ℤ) := by
        intro c h1 h2 hPc
        by_contra hne
        exact hnone c (by omega) h2 hPc
      right
      exact ⟨((n + 1 : ℕ) : ℤ), by omega, by omega, hP, rfl, rfl,
        fun c h1 h2 hPc => le_of_eq (key c h1 h2 hPc),
        Or.inl ⟨rfl, rfl, key⟩⟩
    · rw [if_neg (show ¬ buf.maxCorrect = -1 by rw [hM4]; omega)]
      right
      refine ⟨M, by omega, hM2, hM3, hM4, hM5, ?_, ?_⟩
      · intro c h1 h2 hPc
        by_cases hc : c = ((n + 1 : ℕ) : ℤ)
        · omega
        · exact hM6 c (by omega) h2 hPc
      · exact Or.inr ⟨((n + 1 : ℕ) : ℤ), by omega, hM1, hP, rfl, rfl,
          fun c h1 _ _ => by omega⟩
  · rw [pvnStep, if_neg hP]
    rcases h with ⟨hb, hnone⟩ | ⟨M, hM1, hM2, hM3, hM4, hM5, hM6, hrest⟩
    · left
      refine ⟨hb, ?_⟩
      intro c h1 h2 hPc
      by_cases hc : c = ((n + 1 : ℕ) : ℤ)
      · rw [hc] at hPc; exact hP hPc
      · exact hnone c (by omega) h2 hPc
    · right
      refine ⟨M, by omega, hM2, hM3, hM4, hM5, ?_, ?_⟩
      · intro c h1 h2 hPc
        by_cases hc : c = ((n + 1 : ℕ) : ℤ)
        · rw [hc] at hPc; exact absurd hPc hP
        · exact hM6 c (by omega) h2 hPc
      · rcases hrest with ⟨ha1, ha2, ha3⟩ | ⟨m, hm1, hm2, hm3, hm4, hm5, hm6⟩
        · left
          refine ⟨ha1, ha2, ?_⟩
          intro c h1 h2 hPc
          by_cases hc : c = ((n + 1 : ℕ) : ℤ)
          · rw [hc] at hPc; exact absurd hPc hP
          · exact ha3 c (by omega) h2 hPc
        · right
          refine ⟨m, by omega, hm2, hm3, hm4, hm5, ?_⟩
          intro c h1 h2 hPc
          by_cases hc : c = ((n + 1 : ℕ) : ℤ)
          · rw [hc] at hPc; exact absurd hPc hP
          · exact hm6 c (by omega) h2 hPc

lemma pvnLoop_inv (total : ℕ) (target : ℚ) (dp : ℕ) :
    ∀ (n : ℕ) (buf : MinMaxValues), n ≤ total → BufInv total target dp n buf →
      BufInv total target dp 0 (pvnLoop total target dp n buf)
  | 0, _, _, h => h
  | n + 1, buf, hn, h =>
    pvnLoop_inv total target dp n (pvnStep total target dp (n + 1) buf) (by omega)
      (pvnStep_inv total target dp n buf hn h)

lemma fpvn_inv (total : ℕ) (target : ℚ) (dp : ℕ) :
    BufInv total target dp 0 (find_positives_vs_negatives total target dp) :=
  pvnLoop_inv total target dp total initBuf le_rfl
    (Or.inl ⟨rfl, fun _ h1 h2 _ => by omega⟩)

lemma round_q_mono {x y : ℚ} (h : x ≤ y) : round x ≤ round y := by
  rw [round_eq, round_eq]
  exact Int.floor_le_floor (by linarith)

lemma c_round_mono {x y : ℚ} (h : x ≤ y) : c_round x ≤ c_round y := by
  unfold c_round
  by_cases hx : x < 0
  · by_cases hy : y < 0
    · rw [if_pos hx, if_pos hy]
      exact neg_le_neg (round_q_mono (by linarith))
    · rw [if_pos hx, if_neg hy]
      have h1 : (0 : ℤ) ≤ round (-x) := by
        have := round_q_mono (show (0 : ℚ) ≤ -x by linarith)
        simpa using this
      have h2 : (0 : ℤ) ≤ round y := by
        have := round_q_mono (show (0 : ℚ) ≤ y by linarith)
        simpa using this
      omega
  · rw [if_neg hx, if_neg (show ¬ y < 0 by push_neg at hx ⊢; linarith)]
    exact round_q_mono h

lemma round_dp_mono {x y : ℚ} (dp : ℕ) (h : x ≤ y) : round_dp x dp ≤ round_dp y dp := by
  unfold round_dp
  have hpow : (0 : ℚ) < 10 ^ dp := by positivity
  have hc := c_round_mono (mul_le_mul_of_nonneg_right h (le_of_lt hpow))
  exact (div_le_div_right hpow).mpr (by exact_mod_cast hc)

lemma accMatches_between (total : ℕ) (htot : 0 < total) (target : ℚ) (dp : ℕ)
    {c1 c2 c : ℤ} (h1 : accMatches total target dp c1) (h2 : accMatches total target dp c2)
    (hl : c1 ≤ c) (hu : c ≤ c2) : accMatches total target dp c := by
  unfold accMatches at *
  have htotQ : (0 : ℚ) < (total : ℚ) := by exact_mod_cast htot
  have hq1 : ((c1 : ℚ) / (total : ℚ)) ≤ ((c : ℚ) / (total : ℚ)) :=
    (div_le_div_right htotQ).mpr (by exact_mod_cast hl)
  have hq2 : ((c : ℚ) / (total : ℚ)) ≤ ((c2 : ℚ) / (total : ℚ)) :=
    (div_le_div_right htotQ).mpr (by exact_mod_cast hu)
  have m1 := round_dp_mono dp hq1
  have m2 := round_dp_mono dp hq2
  rw [h1] at m1
  rw [h2] at m2
  exact le_antisymm m2 m1

lemma sweepFuel_sum (cb : ℤ) :
    ∀ (n : ℕ) (TP FN FP TN : ℤ), ∀ x ∈ sweepFuel cb n TP FN FP TN,
      x.1 + x.2.2.2 = TP + TN := by
  intro n
  induction n with
  | zero => intro TP FN FP TN x hx; simp [sweepFuel] at hx
  | succ k ih =>
    intro TP FN FP TN x hx
    rw [sweepFuel] at hx
    split_ifs at hx with hg
    · rcases List.mem_cons.mp hx with rfl | hx'
      · show TP - 1 + (TN + 1) = TP + TN
        omega
      · have := ih (TP - 1) (FN + 1) (FP - 1) (TN + 1) x hx'
        omega
    · simp at hx

lemma sweepFuel_length (cb : ℤ) :
    ∀ (n : ℕ) (TP FN FP TN : ℤ), (sweepFuel cb n TP FN FP TN).length ≤ n := by
  intro n
  induction n with
  | zero => intro TP FN FP TN; simp [sweepFuel]
  | succ k ih =>
    intro TP FN FP TN
    rw [sweepFuel]
    split_ifs with hg
    · have := ih (TP - 1) (FN + 1) (FP - 1) (TN + 1)
      simpa using this
    · simp

/-- C4: every correct count in `[1, total]` whose accuracy rounds to the
target lies within the correct-count range the returned `AccuracyRange`
stands for, and the extremes are tight: `max_correct` is the greatest
matching count, the range's lower end (`min_correct`, or `max_correct`
itself when the min slot holds the `-1` absence marker of a single-value
range) is the least matching count, and both extremes themselves match. -/
theorem C4_range_correct_and_tight (total : ℕ) (htot : 0 < total) (target : ℚ) (dp : ℕ) :
    (∀ c : ℤ, 1 ≤ c → c ≤ (total : ℤ) → accMatches total target dp c →
        minEff (find_positives_vs_negatives total target dp) ≤ c ∧
        c ≤ (find_positives_vs_negatives total target dp).maxCorrect) ∧
    ((find_positives_vs_negatives total target dp).maxCorrect ≠ -1 →
        accMatches total target dp ((find_positives_vs_negatives total target dp).maxCorrect) ∧
        accMatches total target dp (minEff (find_positives_vs_negatives total target dp)) ∧
        1 ≤ minEff (find_positives_vs_negatives total target dp) ∧
        minEff (find_positives_vs_negatives total target dp) ≤
          (find_positives_vs_negatives total target dp).maxCorrect ∧
        (find_positives_vs_negatives total target dp).maxCorrect ≤ (total : ℤ)) := by
  have hinv := fpvn_inv total target dp
  constructor
  · intro c h1 h2 hPc
    rcases hinv with ⟨hb, hnone⟩ | ⟨M, hM1, hM2, hM3, hM4, hM5, hM6, hrest⟩
    · exact absurd hPc (hnone c (by omega) h2)
    · have hcM : c ≤ M := hM6 c (by omega) h2 hPc
      rcases hrest with ⟨ha1, _, ha3⟩ | ⟨m, hm1, hm2, hm3, hm4, hm5, hm6⟩
      · have hme : minEff (find_positives_vs_negatives total target dp) = M := by
          unfold minEff
          rw [ha1, if_pos rfl, hM4]
        have hcMeq : c = M := ha3 c (by omega) h2 hPc
        rw [hme, hM4]
        omega
      · have hme : minEff (find_positives_vs_negatives total target dp) = m := by
          unfold minEff
          rw [hm4, if_neg (show ¬ (m = -1) by omega)]
        rw [hme, hM4]
        exact ⟨hm6 c (by omega) h2 hPc, hcM⟩
  · intro hmax
    rcases hinv with ⟨hb, hnone⟩ | ⟨M, hM1, hM2, hM3, hM4, hM5, hM6, hrest⟩
    · rw [hb] at hmax
      exact absurd rfl hmax
    · rcases hrest with ⟨ha1, _, ha3⟩ | ⟨m, hm1, hm2, hm3, hm4, hm5, hm6⟩
      · have hme : minEff (find_positives_vs_negatives total target dp) = M := by
          unfold minEff
          rw [ha1, if_pos rfl, hM4]
        rw [hme, hM4]
        exact ⟨hM3, hM3, by omega, le_refl M, hM2⟩
      · have hme : minEff (find_positives_vs_negatives total target dp) = m := by
          unfold minEff
          rw [hm4, if_neg (show ¬ (m = -1) by omega)]
        rw [hme, hM4]
        exact ⟨hM3, hm3, by omega, by omega, hM2⟩

/-- Witness for C4 at `total = 20`, `target = 0.75`, `dp = 2`: the
matching count 15 lies within the returned range. -/
theorem C4_range_correct_and_tight_witness :
    0 < 20 ∧
    (minEff (find_positives_vs_negatives 20 (3 / 4) 2) ≤ 15 ∧
      (15 : ℤ) ≤ (find_positives_vs_negatives 20 (3 / 4) 2).maxCorrect) :=
  ⟨by decide,
    (C4_range_correct_and_tight 20 (by decide) (3 / 4) 2).1 15 (by decide) (by decide)
      (by with_unfolding_all decide)⟩

lemma seedMatrix_sum (a b : ℤ) (r : MinMaxValues) (i : ℤ) :
    (seedMatrix a b r i).1 + (seedMatrix a b r i).2.2.2 = a + b - r.minIncorrect - i := by
  show seedTP a r i + (b - (r.minIncorrect + i - (a - seedTP a r i))) =
    a + b - r.minIncorrect - i
  ring

lemma matrixSweep_sum (b : ℤ) (s : ℤ × ℤ × ℤ × ℤ) :
    ∀ x ∈ matrixSweep b s, x.1 + x.2.2.2 = s.1 + s.2.2.2 :=
  sweepFuel_sum b s.1.toNat s.1 s.2.1 s.2.2.1 s.2.2.2

/-- Any matrix emitted at offset `i` has `TP + TN = class_a + class_b - min_incorrect - i`:
true of the seed by `seedMatrix_sum` and preserved by every transfer step. -/
lemma find_matrices_sum (a b : ℤ) (r : MinMaxValues) (m : ℤ × ℤ × ℤ × ℤ)
    (hm : m ∈ find_matrices a b r) :
    ∃ i : ℕ, i < (combinations r).toNat ∧
      m.1 + m.2.2.2 = a + b - r.minIncorrect - (i : ℤ) := by
  unfold find_matrices at hm
  obtain ⟨blk, hblk, hmblk⟩ := List.mem_join.mp hm
  obtain ⟨i, hi, rfl⟩ := List.mem_map.mp hblk
  refine ⟨i, List.mem_range.mp hi, ?_⟩
  rcases List.mem_cons.mp hmblk with rfl | hsw
  · exact seedMatrix_sum a b r (i : ℤ)
  · rw [matrixSweep_sum b _ m hsw]
    exact seedMatrix_sum a b r (i : ℤ)

/-- C5: every matrix emitted by the enumerator (before any metric
filtering) reproduces the target accuracy:
`round_dp((TP+TN)/(class_a_count+class_b_count), dp) = target_accuracy`. -/
theorem C5_accuracy_reproduction (class_a_count class_b_count : ℤ)
    (ha : 0 < class_a_count) (hb : 0 < class_b_count) (decimal_places : ℕ)
    (target_accuracy : ℚ)
    (hfound : (find_positives_vs_negatives (class_a_count + class_b_count).toNat
        target_accuracy decimal_places).maxCorrect ≠ -1) :
    ∀ m ∈ find_matrices class_a_count class_b_count
        (find_positives_vs_negatives (class_a_count + class_b_count).toNat
          target_accuracy decimal_places),
      round_dp (((m.1 + m.2.2.2 : ℤ) : ℚ) / ((class_a_count + class_b_count : ℤ) : ℚ))
        decimal_places = target_accuracy := by
  intro m hm
  have htotz : (((class_a_count + class_b_count).toNat : ℕ) : ℤ) =
      class_a_count + class_b_count := Int.toNat_of_nonneg (by omega)
  have htotpos : 0 < (class_a_count + class_b_count).toNat := by omega
  have hinv := fpvn_inv (class_a_count + class_b_count).toNat target_accuracy decimal_places
  obtain ⟨i, hi, hsum⟩ := find_matrices_sum class_a_count class_b_count _ m hm
  rcases hinv with ⟨hb', _⟩ | ⟨M, hM1, hM2, hM3, hM4, hM5, hM6, hrest⟩
  · rw [hb'] at hfound
    exact absurd rfl hfound
  have hsumM : m.1 + m.2.2.2 = M - (i : ℤ) := by
    rw [hsum, hM5]
    omega
  have hmatch : accMatches (class_a_count + class_b_count).toNat target_accuracy
      decimal_places (m.1 + m.2.2.2) := by
    rcases hrest with ⟨ha1, _, _⟩ | ⟨m0, hm1, hm2, hm3, hm4, _, _⟩
    · have hcomb : combinations (find_positives_vs_negatives
          (class_a_count + class_b_count).toNat target_accuracy decimal_places) = 1 := by
        unfold combinations
        rw [ha1]
        simp
      rw [hcomb] at hi
      have hi0 : i = 0 := by omega
      rw [hsumM, hi0]
      simpa using hM3
    · have hcomb : combinations (find_positives_vs_negatives
          (class_a_count + class_b_count).toNat target_accuracy decimal_places) =
          M - m0 + 1 := by
        unfold combinations
        rw [hm4, if_pos (show ¬ (m0 = -1) by omega), hM4]
      have hile : (i : ℤ) < M - m0 + 1 := by
        have hnn : (0 : ℤ) ≤ M - m0 + 1 := by omega
        have := hi
        rw [hcomb] at this
        omega
      exact hsumM ▸ accMatches_between (class_a_count + class_b_count).toNat htotpos
        target_accuracy decimal_places hm3 hM3 (by omega) (by omega)
  unfold accMatches at hmatch
  have hq : (((class_a_count + class_b_count).toNat : ℕ) : ℚ) =
      ((class_a_count + class_b_count : ℤ) : ℚ) := by
    exact_mod_cast congrArg (fun z : ℤ => (z : ℚ)) htotz
  rw [hq] at hmatch
  exact hmatch

/-- Witness for C5 at `a = b = 10`, `dp = 2`, `target = 0.75` and the
emitted matrix `(10,0,5,5)`. -/
theorem C5_accuracy_reproduction_witness :
    round_dp (((15 : ℤ) : ℚ) / ((20 : ℤ) : ℚ)) 2 = 3 / 4 :=
  C5_accuracy_reproduction 10 10 (by decide) (by decide) 2 (3 / 4)
    (by with_unfolding_all decide) (10, 0, 5, 5) (by with_unfolding_all decide)


/-- C7: when no correct count in `[1, total]` rounds to the target
accuracy, the range finder leaves the `-1` marker in slot 0 and both
pipelines take the "There are no combinations that can achieve this
accuracy" exit, emitting zero records (`none`), without any exception. -/
theorem C7_no_accuracy_match (class_a_count class_b_count : ℤ)
    (ha : 0 < class_a_count) (hb : 0 < class_b_count) (decimal_places : ℕ)
    (target_accuracy target_sensitivity target_specificity target_f1
      target_precision : ℚ)
    (hnone : ∀ c : ℕ, c < (class_a_count + class_b_count).toNat + 1 → 1 ≤ c →
        ¬ accMatches (class_a_count + class_b_count).toNat target_accuracy
          decimal_places (c : ℤ)) :
    (find_positives_vs_negatives (class_a_count + class_b_count).toNat
        target_accuracy decimal_places).maxCorrect = -1 ∧
    reverse_engineer_confusion_matrices class_a_count class_b_count decimal_places
        target_accuracy target_sensitivity target_specificity target_f1
        target_precision = none ∧
    reverse_engineer_confusion_matrices_re class_a_count class_b_count decimal_places
        target_accuracy target_sensitivity target_specificity target_f1
        target_precision = none := by
  have hmax : (find_positives_vs_negatives (class_a_count + class_b_count).toNat
      target_accuracy decimal_places).maxCorrect = -1 := by
    rcases fpvn_inv (class_a_count + class_b_count).toNat target_accuracy
        decimal_places with ⟨hb', _⟩ | ⟨M, hM1, hM2, hM3, _, _, _, _⟩
    · rw [hb']
      rfl
    · exfalso
      have hMz : ((M.toNat : ℕ) : ℤ) = M := Int.toNat_of_nonneg (by omega)
      have hlt : M.toNat < (class_a_count + class_b_count).toNat + 1 := by omega
      have := hnone M.toNat hlt (by omega)
      rw [hMz] at this
      exact this hM3
  refine ⟨hmax, ?_, ?_⟩
  · unfold reverse_engineer_confusion_matrices
    rw [if_pos hmax]
  · unfold reverse_engineer_confusion_matrices_re
    rw [if_pos hmax]

/-- Witness for C7 at the spec's no-match scenario:
`class_a = class_b = 3`, `dp = 2`, `target_accuracy = 0.99`. -/
theorem C7_no_accuracy_match_witness :
    (find_positives_vs_negatives ((3 : ℤ) + 3).toNat (99 / 100) 2).maxCorrect = -1 ∧
    reverse_engineer_confusion_matrices 3 3 2 (99 / 100) (-1) (-1) (-1) (-1) = none ∧
    reverse_engineer_confusion_matrices_re 3 3 2 (99 / 100) (-1) (-1) (-1) (-1) = none :=
  C7_no_accuracy_match 3 3 (by decide) (by decide) 2 (99 / 100) (-1) (-1) (-1) (-1)
    (by with_unfolding_all decide)

lemma pvnLoop_no_match (total : ℕ) (target : ℚ) (dp : ℕ) (buf : MinMaxValues)
    (hnone : ∀ c : ℕ, c < total + 1 → ¬ accMatches total target dp (c : ℤ)) :
    ∀ n : ℕ, n ≤ total → pvnLoop total target dp n buf = buf := by
  intro n
  induction n with
  | zero => intro _; rfl
  | succ k ih =>
    intro hk
    rw [pvnLoop, pvnStep, if_neg (hnone (k + 1) (by omega))]
    exact ih (by omega)

/-- C9 (amended): the range finder is deterministic only as a function
of its arguments *and* the static buffer contents.  The first call of a
process (buffer = the initializer) depends on the arguments alone, and a
call whose arguments match no correct count returns the buffer exactly
as it found it — i.e. the previous call's values, not the `-1` markers. -/
theorem C9_static_buffer_behavior :
    (∀ (total : ℕ) (target : ℚ) (dp : ℕ),
        find_positives_vs_negatives_st initBuf total target dp =
          find_positives_vs_negatives total target dp) ∧
    (∀ (buf : MinMaxValues) (total : ℕ) (target : ℚ) (dp : ℕ),
        (∀ c : ℕ, c < total + 1 → ¬ accMatches total target dp (c : ℤ)) →
        find_positives_vs_negatives_st buf total target dp = buf) :=
  ⟨fun _ _ _ => rfl,
   fun buf total target dp hnone =>
     pvnLoop_no_match total target dp buf hnone total le_rfl⟩

/-- Witness for C9's amended statement: a no-match call (`total = 6`,
`target = 0.99`, `dp = 2`) returns the stale buffer `⟨15,5,-1,-1⟩`. -/
theorem C9_static_buffer_behavior_witness :
    find_positives_vs_negatives_st ⟨15, 5, -1, -1⟩ 6 (99 / 100) 2 = ⟨15, 5, -1, -1⟩ :=
  C9_static_buffer_behavior.2 ⟨15, 5, -1, -1⟩ 6 (99 / 100) 2
    (by with_unfolding_all decide)

/-- C9 counterexample: within one run, after a first call
(`total = 20`, `target = 0.75`, `dp = 2`) that found matches, a second
call whose arguments (`total = 6`, `target = 0.99`, `dp = 2`) match no
count returns the first call's values — slot 0 is `15`, not the `-1`
NotFound marker the claim asserts. -/
theorem C9_second_call_returns_stale :
    find_positives_vs_negatives_st
        (find_positives_vs_negatives_st initBuf 20 (3 / 4) 2) 6 (99 / 100) 2 =
      ⟨15, 5, -1, -1⟩ ∧
    ((⟨15, 5, -1, -1⟩ : MinMaxValues).maxCorrect = -1 → False) := by
  constructor
  · with_unfolding_all decide
  · intro h
    exact absurd h (by decide)

/-- C10: the enumeration terminates with an exact outer-loop count: the
emitted list splits into one block per offset — exactly
`max_correct - min_correct + 1` blocks when the min slot is set, one
block otherwise — and each block is its seed followed by a transfer
sweep of boundedly many steps (the sweep consumes one unit of `TP > 0`
per step, so a block has at most `1 + |class_a_count| + |max_correct|`
records). -/
theorem C10_enumeration_terminates (class_a_count class_b_count : ℤ)
    (r : MinMaxValues) (hr : r.minCorrect ≠ -1 → r.minCorrect ≤ r.maxCorrect) :
    ∃ blocks : List (List (ℤ × ℤ × ℤ × ℤ)),
      find_matrices class_a_count class_b_count r = blocks.join ∧
      (r.minCorrect ≠ -1 → (blocks.length : ℤ) = r.maxCorrect - r.minCorrect + 1) ∧
      (r.minCorrect = -1 → blocks.length = 1) ∧
      ∀ bl ∈ blocks, 0 < bl.length ∧
        (bl.length : ℤ) ≤ 1 + (class_a_count.natAbs : ℤ) + (r.maxCorrect.natAbs : ℤ) := by
  refine ⟨(List.range (combinations r).toNat).map (fun (i : ℕ) =>
      seedMatrix class_a_count class_b_count r (i : ℤ) ::
        matrixSweep class_b_count (seedMatrix class_a_count class_b_count r (i : ℤ))),
    rfl, ?_, ?_, ?_⟩
  · intro hmin
    rw [List.length_map, List.length_range]
    have hc : combinations r = r.maxCorrect - r.minCorrect + 1 := by
      unfold combinations
      rw [if_pos hmin]
    have := hr hmin
    rw [hc]
    omega
  · intro hmin
    have hc : combinations r = 1 := by
      unfold combinations
      rw [if_neg (by rw [hmin]; exact fun h => h rfl)]
    rw [List.length_map, List.length_range, hc]
    rfl
  · intro bl hbl
    obtain ⟨i, _, rfl⟩ := List.mem_map.mp hbl
    refine ⟨by simp, ?_⟩
    have hlen := sweepFuel_length class_b_count
      (seedMatrix class_a_count class_b_count r (i : ℤ)).1.toNat
      (seedMatrix class_a_count class_b_count r (i : ℤ)).1
      (seedMatrix class_a_count class_b_count r (i : ℤ)).2.1
      (seedMatrix class_a_count class_b_count r (i : ℤ)).2.2.1
      (seedMatrix class_a_count class_b_count r (i : ℤ)).2.2.2
    have hTP : (seedMatrix class_a_count class_b_count r (i : ℤ)).1 =
        seedTP class_a_count r (i : ℤ) := rfl
    have hbound : (seedTP class_a_count r (i : ℤ)).toNat ≤
        class_a_count.natAbs + r.maxCorrect.natAbs := by
      unfold seedTP
      split_ifs <;> omega
    rw [List.length_cons]
    unfold matrixSweep at hlen ⊢
    rw [hTP] at hlen ⊢
    omega

/-- Witness for C10 at `class_a = class_b = 10` and the range
`⟨15, 5, -1, -1⟩` produced for accuracy 0.75. -/
theorem C10_enumeration_terminates_witness :
    ∃ blocks : List (List (ℤ × ℤ × ℤ × ℤ)),
      find_matrices 10 10 ⟨15, 5, -1, -1⟩ = blocks.join ∧
      ((⟨15, 5, -1, -1⟩ : MinMaxValues).minCorrect ≠ -1 →
        (blocks.length : ℤ) = (15 : ℤ) - (-1) + 1) ∧
      ((⟨15, 5, -1, -1⟩ : MinMaxValues).minCorrect = -1 → blocks.length = 1) ∧
      ∀ bl ∈ blocks, 0 < bl.length ∧
        (bl.length : ℤ) ≤ 1 + ((10 : ℤ).natAbs : ℤ) + (((15 : ℤ).natAbs : ℕ) : ℤ) :=
  C10_enumeration_terminates 10 10 ⟨15, 5, -1, -1⟩ (by decide)

/-- C6: an undefined metric (zero denominator) never matches: the
sequential filter of `reverse_engineer_confusion_matrix.cpp` never
retains such a matrix for any metric and any target, and the fused
check of `reverse_engineer.cpp` rejects any matrix whose precision
denominator `TP + FP` is zero (the IEEE `NaN`/`inf` result compares
unequal to every target).  Both evaluations are total — no crash. -/
theorem C6_undefined_metric_never_matches :
    (∀ (matrices : List (ℤ × ℤ × ℤ × ℤ)) (target : ℚ) (dp : ℕ) (name : MetricName)
        (m : ℤ × ℤ × ℤ × ℤ),
        metricValue name (m.1 : ℚ) (m.2.1 : ℚ) (m.2.2.1 : ℚ) (m.2.2.2 : ℚ) = none →
        m ∉ check_metric matrices target dp name) ∧
    (∀ (TP FN FP TN target_sensitivity target_specificity target_f1
        target_precision : ℚ) (dp : ℕ), TP + FP = 0 →
        check_metric_re TP FN FP TN target_sensitivity target_specificity
          target_f1 target_precision dp = false) := by
  constructor
  · intro mats target dp name m hval hmem
    rw [check_metric, List.mem_filter] at hmem
    have hp := hmem.2
    rw [metricMatches, hval] at hp
    simp at hp
  · intro TP FN FP TN ts tsp tf1 tpr dp hden
    have hprec : metricMatches .precision TP FN FP TN tpr dp = false := by
      rw [metricMatches]
      show (match metricValue .precision TP FN FP TN with
        | none => false
        | some v => decide (round_dp v dp = tpr)) = false
      rw [show metricValue .precision TP FN FP TN = none from by
        rw [metricValue]; exact if_pos hden]
    rw [check_metric_re, hprec]
    simp

/-- Witness for C6: the degenerate matrix `(0,5,0,5)` (precision `0/0`)
is dropped by the precision filter at target `1/2`, and rejected by the
fused check. -/
theorem C6_undefined_metric_never_matches_witness :
    ((0, 5, 0, 5) : ℤ × ℤ × ℤ × ℤ) ∉
        check_metric [(0, 5, 0, 5)] (1 / 2) 2 .precision ∧
    check_metric_re 0 5 0 5 (1 / 2) (1 / 2) (1 / 2) (1 / 2) 2 = false :=
  ⟨C6_undefined_metric_never_matches.1 [(0, 5, 0, 5)] (1 / 2) 2 .precision
      (0, 5, 0, 5) (by with_unfolding_all decide),
   C6_undefined_metric_never_matches.2 0 5 0 5 (1 / 2) (1 / 2) (1 / 2) (1 / 2) 2
      (by with_unfolding_all decide)⟩

/-- C1 (code bug in `reverse_engineer.cpp`): `check_metric` there runs
`if (round_dp(metric) != target || target == -1) meets_criteria = false;`
for each metric, so a `-1` "exclude this target" sentinel rejects every
matrix instead of being a pass-through.  The matrix `(10,0,5,5)` meets
the one finite target supplied (sensitivity 1.0) yet is rejected, and
with all four targets `-1` the whole pipeline emits an empty row set —
while `reverse_engineer_confusion_matrix.cpp`, whose pipeline skips the
filter for `-1` targets (the documented behavior), retains everything
the enumerator produced. -/
theorem C1_sentinel_rejects_instead_of_passing :
    check_metric_re 10 0 5 5 1 (-1) (-1) (-1) 2 = false ∧
    reverse_engineer_confusion_matrices_re 10 10 2 (3 / 4) (-1) (-1) (-1) (-1) =
      some [] ∧
    reverse_engineer_confusion_matrices 10 10 2 (3 / 4) (-1) (-1) (-1) (-1) =
      some (find_matrices 10 10 (find_positives_vs_negatives 20 (3 / 4) 2)) := by
  refine ⟨?_, ?_, ?_⟩ <;> with_unfolding_all decide

/-- C2 (code bug): with `class_a_count = 1`, `class_b_count = 3`,
`decimal_places = 0`, `target_accuracy = 1`, the range is
`max_correct = 4`, `min_correct = 2`, so the offset loop runs `i = 0,1,2`
and the seed of offset `i = 2` is computed as
`TP = class_a_count - i = -1`, `FN = 2` — the enumerator emits the
matrix `(-1, 2, 0, 3)` with a negative `TP` and `FN > class_a_count`,
violating the claimed invariant. -/
theorem C2_negative_field_emitted :
    find_positives_vs_negatives 4 1 0 = ⟨4, 0, 2, 2⟩ ∧
    find_matrices 1 3 (find_positives_vs_negatives 4 1 0) =
      [(1, 0, 0, 3), (0, 1, 0, 3), (-1, 2, 0, 3)] ∧
    ((-1 : ℤ), 2, 0, 3) ∈ find_matrices 1 3 (find_positives_vs_negatives 4 1 0) := by
  refine ⟨?_, ?_, ?_⟩ <;> with_unfolding_all decide

/-- C3 counterexample: for `a = b = 10`, `dp = 2`, accuracy `0.75`, the
range finder leaves `min_correct = -1` (absence marker), not `15`, and
the enumeration does not equal the claimed 5-record list — the transfer
sweep also performs and emits the step reaching `TN = class_b_count`,
the record `(5,5,0,10)`. -/
theorem C3_claimed_output_wrong :
    ¬ ((find_positives_vs_negatives 20 (3 / 4) 2).minCorrect = 15 ∧
      find_matrices 10 10 (find_positives_vs_negatives 20 (3 / 4) 2) =
        [(10, 0, 5, 5), (9, 1, 4, 6), (8, 2, 3, 7), (7, 3, 2, 8), (6, 4, 1, 9)]) := by
  with_unfolding_all decide

/-- C3 (amended): for `a = b = 10`, `dp = 2`, `target = 0.75`, the range
finder returns `max_correct = 15`, `min_incorrect = 5` and leaves the
min slots at the `-1` absence marker (single-value range), and the
enumeration emits exactly the six records
`(10,0,5,5), (9,1,4,6), (8,2,3,7), (7,3,2,8), (6,4,1,9), (5,5,0,10)` —
the seed plus five transfer steps, the last one reaching
`TN = class_b_count` and being emitted before the guard stops the
sweep.  With no metric targets the pipeline returns exactly these. -/
theorem C3_concrete_scenario :
    find_positives_vs_negatives 20 (3 / 4) 2 = ⟨15, 5, -1, -1⟩ ∧
    find_matrices 10 10 (find_positives_vs_negatives 20 (3 / 4) 2) =
      [(10, 0, 5, 5), (9, 1, 4, 6), (8, 2, 3, 7), (7, 3, 2, 8), (6, 4, 1, 9),
        (5, 5, 0, 10)] ∧
    reverse_engineer_confusion_matrices 10 10 2 (3 / 4) (-1) (-1) (-1) (-1) =
      some [(10, 0, 5, 5), (9, 1, 4, 6), (8, 2, 3, 7), (7, 3, 2, 8), (6, 4, 1, 9),
        (5, 5, 0, 10)] := by
  refine ⟨?_, ?_, ?_⟩ <;> with_unfolding_all decide

/-- C8 (amended): the two pipelines agree whenever all four optional
targets are finite (not the `-1` sentinel): the fused
enumerate-then-check of `reverse_engineer.cpp` then emits exactly the
list the sequential per-metric filters of
`reverse_engineer_confusion_matrix.cpp` retain.  (With any `-1` target
they diverge — see the counterexample theorem.) -/
theorem C8_pipelines_agree_for_finite_targets (class_a_count class_b_count : ℤ)
    (decimal_places : ℕ) (target_accuracy target_sensitivity target_specificity
      target_f1 target_precision : ℚ)
    (hs : target_sensitivity ≠ -1) (hsp : target_specificity ≠ -1)
    (hf : target_f1 ≠ -1) (hp : target_precision ≠ -1) :
    reverse_engineer_confusion_matrices_re class_a_count class_b_count
        decimal_places target_accuracy target_sensitivity target_specificity
        target_f1 target_precision =
      reverse_engineer_confusion_matrices class_a_count class_b_count
        decimal_places target_accuracy target_sensitivity target_specificity
        target_f1 target_precision := by
  unfold reverse_engineer_confusion_matrices_re reverse_engineer_confusion_matrices
  by_cases hmax : (find_positives_vs_negatives
      (class_a_count + class_b_count).toNat target_accuracy
      decimal_places).maxCorrect = -1
  · rw [if_pos hmax, if_pos hmax]
  · rw [if_neg hmax, if_neg hmax]
    simp only [if_pos hs, if_pos hsp, if_pos hf, if_pos hp]
    congr 1
    simp only [check_metric]
    rw [List.filter_filter, List.filter_filter, List.filter_filter]
    refine List.filter_congr ?_
    intro m _
    simp only [check_metric_re, decide_eq_false hs, decide_eq_false hsp,
      decide_eq_false hf, decide_eq_false hp, Bool.not_false, Bool.and_true]
    cases metricMatches MetricName.sensitivity ((m.1 : ℤ) : ℚ) ((m.2.1 : ℤ) : ℚ)
        ((m.2.2.1 : ℤ) : ℚ) ((m.2.2.2 : ℤ) : ℚ) target_sensitivity decimal_places <;>
      cases metricMatches MetricName.specificity ((m.1 : ℤ) : ℚ) ((m.2.1 : ℤ) : ℚ)
        ((m.2.2.1 : ℤ) : ℚ) ((m.2.2.2 : ℤ) : ℚ) target_specificity decimal_places <;>
      cases metricMatches MetricName.f1 ((m.1 : ℤ) : ℚ) ((m.2.1 : ℤ) : ℚ)
        ((m.2.2.1 : ℤ) : ℚ) ((m.2.2.2 : ℤ) : ℚ) target_f1 decimal_places <;>
      cases metricMatches MetricName.precision ((m.1 : ℤ) : ℚ) ((m.2.1 : ℤ) : ℚ)
        ((m.2.2.1 : ℤ) : ℚ) ((m.2.2.2 : ℤ) : ℚ) target_precision decimal_places <;>
      rfl

/-- Witness for C8's amended equivalence at finite targets `1/2`. -/
theorem C8_pipelines_agree_for_finite_targets_witness :
    reverse_engineer_confusion_matrices_re 10 10 2 (3 / 4) (1 / 2) (1 / 2) (1 / 2)
        (1 / 2) =
      reverse_engineer_confusion_matrices 10 10 2 (3 / 4) (1 / 2) (1 / 2) (1 / 2)
        (1 / 2) :=
  C8_pipelines_agree_for_finite_targets 10 10 2 (3 / 4) (1 / 2) (1 / 2) (1 / 2) (1 / 2)
    (by with_unfolding_all decide) (by with_unfolding_all decide)
    (by with_unfolding_all decide) (by with_unfolding_all decide)

/-- C8 counterexample: on the validated inputs
`a = b = 10`, `dp = 2`, accuracy `0.75`, all optional targets `-1`,
the `reverse_engineer.cpp` pipeline emits nothing (its `check_metric`
rejects every matrix when a target is `-1`) while the
`reverse_engineer_confusion_matrix.cpp` pipeline retains all six
enumerated matrices — the two emitted sets differ. -/
theorem C8_pipelines_differ_on_sentinel :
    reverse_engineer_confusion_matrices_re 10 10 2 (3 / 4) (-1) (-1) (-1) (-1) ≠
      reverse_engineer_confusion_matrices 10 10 2 (3 / 4) (-1) (-1) (-1) (-1) := by
  with_unfolding_all decide
